import Mathlib

/-!
Shallow embedding of the kanban-board task store
(`backend/app/services/task_service.py`, `backend/app/models/task.py`,
`backend/app/schemas/task.py`).

Tasks are persisted one-per-file under a directory named by their status.
The filesystem is modelled as an association list of entries
(dir, filename, file); a file is a frontmatter mapping plus a body string.
Datetimes are modelled as abstract `Nat` instants (ISO serialisation is a
bijection, modelled as the identity); the float-valued hour fields are
modelled as `Int`, which is faithful for every operation the code performs
on them (presence checks and `>= 0` validation).
-/

namespace Kanban

/-- `TaskStatus` enum from `models/task.py`. -/
inductive TaskStatus where
  | todo
  | in_progress
  | done
deriving DecidableEq, Repr

/-- `.value` of the str-enum member. -/
def TaskStatus.value : TaskStatus → String
  | .todo => "todo"
  | .in_progress => "in_progress"
  | .done => "done"

/-- `TaskStatus(s)` coercion from a raw string; `none` models the `ValueError`. -/
def TaskStatus.fromString? (s : String) : Option TaskStatus :=
  if s = "todo" then some .todo
  else if s = "in_progress" then some .in_progress
  else if s = "done" then some .done
  else none

/-- Iteration order of `for status in TaskStatus` (declaration order). -/
def allStatuses : List TaskStatus := [.todo, .in_progress, .done]

/-- `TaskPriority` enum from `models/task.py`. -/
inductive TaskPriority where
  | low
  | medium
  | high
  | critical
deriving DecidableEq, Repr

def TaskPriority.value : TaskPriority → String
  | .low => "low"
  | .medium => "medium"
  | .high => "high"
  | .critical => "critical"

def TaskPriority.fromString? (s : String) : Option TaskPriority :=
  if s = "low" then some .low
  else if s = "medium" then some .medium
  else if s = "high" then some .high
  else if s = "critical" then some .critical
  else none

/-- A status-typed value as it can appear in a Python dict handed to the
service: either an enum member or a raw string. -/
inductive StatusV where
  | enum (s : TaskStatus)
  | str (s : String)
deriving DecidableEq, Repr

/-- Pydantic coercion of a status-typed dict value to the enum. -/
def StatusV.parse : StatusV → Option TaskStatus
  | .enum s => some s
  | .str s => TaskStatus.fromString? s

inductive PriorityV where
  | enum (p : TaskPriority)
  | str (p : String)
deriving DecidableEq, Repr

def PriorityV.parse : PriorityV → Option TaskPriority
  | .enum p => some p
  | .str p => TaskPriority.fromString? p

/-- The `Task` pydantic model (`models/task.py`).  `Option` marks fields that
may be `None`. -/
structure Task where
  id : String
  title : String
  description : Option String
  status : TaskStatus
  priority : TaskPriority
  created_at : Nat
  updated_at : Option Nat
  due_date : Option Nat
  tags : List String
  assignee : Option String
  estimated_hours : Option Int
  actual_hours : Option Int
  parent_id : Option String
  position : Int
  calendar_event_id : Option String
  telegram_message_id : Option String
  content : Option String
deriving DecidableEq, Repr

/-- The keyword arguments of a `Task(**task_dict)` construction: same shape as
`Task`, but status/priority may still be raw strings (pydantic coerces). -/
structure TaskDict where
  id : String
  title : String
  description : Option String
  status : StatusV
  priority : PriorityV
  created_at : Nat
  updated_at : Option Nat
  due_date : Option Nat
  tags : List String
  assignee : Option String
  estimated_hours : Option Int
  actual_hours : Option Int
  parent_id : Option String
  position : Int
  calendar_event_id : Option String
  telegram_message_id : Option String
  content : Option String
deriving DecidableEq, Repr

/-- Pydantic validation error. -/
inductive ValErr where
  | invalidStatus
  | invalidPriority
  | invalidFields
deriving DecidableEq, Repr

/-- The `ge=0` constraint on the optional hour fields. -/
def hoursOk : Option Int → Bool
  | none => true
  | some h => decide (0 ≤ h)

/-- Field constraints of the `Task` model: `title` 1–200 chars,
`estimated_hours`/`actual_hours` nonnegative when present, `position`
nonnegative. -/
def fieldsOk (title : String) (est act : Option Int) (pos : Int) : Bool :=
  decide (1 ≤ title.length) && decide (title.length ≤ 200) &&
    hoursOk est && hoursOk act && decide (0 ≤ pos)

/-- `Task(**task_dict)`: pydantic coercion and validation, then construction.
Returns `Except` to model the raised `ValidationError`. -/
def Task.build (d : TaskDict) : Except ValErr Task :=
  match d.status.parse with
  | none => .error .invalidStatus
  | some status =>
    match d.priority.parse with
    | none => .error .invalidPriority
    | some priority =>
      if fieldsOk d.title d.estimated_hours d.actual_hours d.position then
        .ok ⟨d.id, d.title, d.description, status, priority, d.created_at,
          d.updated_at, d.due_date, d.tags, d.assignee, d.estimated_hours,
          d.actual_hours, d.parent_id, d.position, d.calendar_event_id,
          d.telegram_message_id, d.content⟩
      else .error .invalidFields

/-- The frontmatter mapping of an on-disk task file, i.e. the output shape of
`Task.to_frontmatter` (`model_dump(exclude={"content"}, exclude_none=True)`
with enums as value strings).  `none` models an absent key. -/
structure FM where
  id : String
  title : String
  description : Option String
  status : String
  priority : String
  created_at : Nat
  updated_at : Option Nat
  due_date : Option Nat
  tags : List String
  assignee : Option String
  estimated_hours : Option Int
  actual_hours : Option Int
  parent_id : Option String
  position : Int
  calendar_event_id : Option String
  telegram_message_id : Option String
deriving DecidableEq, Repr

/-- `Task.to_frontmatter`. -/
def to_frontmatter (t : Task) : FM :=
  ⟨t.id, t.title, t.description, t.status.value, t.priority.value,
    t.created_at, t.updated_at, t.due_date, t.tags, t.assignee,
    t.estimated_hours, t.actual_hours, t.parent_id, t.position,
    t.calendar_event_id, t.telegram_message_id⟩

/-- `Task.from_frontmatter(metadata, content)`: rebuild the keyword dict from
the metadata plus the body and run the pydantic constructor. -/
def from_frontmatter (m : FM) (content : String) : Except ValErr Task :=
  Task.build ⟨m.id, m.title, m.description, .str m.status, .str m.priority,
    m.created_at, m.updated_at, m.due_date, m.tags, m.assignee,
    m.estimated_hours, m.actual_hours, m.parent_id, m.position,
    m.calendar_event_id, m.telegram_message_id, some content⟩

/-- The constraints a constructed `Task` is guaranteed to satisfy. -/
def ValidTask (t : Task) : Prop :=
  fieldsOk t.title t.estimated_hours t.actual_hours t.position = true

theorem TaskStatus.fromString?_value (s : TaskStatus) :
    TaskStatus.fromString? s.value = some s := by
  cases s <;> rfl

theorem TaskPriority.fromString?_value_eq (p : TaskPriority) :
    TaskPriority.fromString? p.value = some p := by
  cases p <;> rfl

theorem TaskStatus.value_inj {s t : TaskStatus} (h : s.value = t.value) :
    s = t := by
  cases s <;> cases t <;> first | rfl | simp [TaskStatus.value] at h

theorem Task.build_ok {d : TaskDict} {t : Task} (h : Task.build d = .ok t) :
    ∃ status priority, d.status.parse = some status ∧
      d.priority.parse = some priority ∧
      fieldsOk d.title d.estimated_hours d.actual_hours d.position = true ∧
      t = ⟨d.id, d.title, d.description, status, priority, d.created_at,
        d.updated_at, d.due_date, d.tags, d.assignee, d.estimated_hours,
        d.actual_hours, d.parent_id, d.position, d.calendar_event_id,
        d.telegram_message_id, d.content⟩ := by
  rcases hs : d.status.parse with _ | status
  · simp [Task.build, hs] at h
  rcases hp : d.priority.parse with _ | priority
  · simp [Task.build, hs, hp] at h
  by_cases hf : fieldsOk d.title d.estimated_hours d.actual_hours d.position = true
  · simp only [Task.build, hs, hp, if_pos hf] at h
    exact ⟨status, priority, rfl, rfl, hf, (Except.ok.injEq _ _ ▸ h).symm⟩
  · simp [Task.build, hs, hp, hf] at h

theorem Task.build_valid {d : TaskDict} {t : Task} (h : Task.build d = .ok t) :
    ValidTask t := by
  obtain ⟨s, p, _, _, hf, ht⟩ := Task.build_ok h
  subst ht
  exact hf

/-- Parsing a frontmatter block fully determines the task's fields. -/
theorem from_frontmatter_ok {m : FM} {c : String} {t : Task}
    (h : from_frontmatter m c = .ok t) :
    ∃ status priority, TaskStatus.fromString? m.status = some status ∧
      TaskPriority.fromString? m.priority = some priority ∧
      t = ⟨m.id, m.title, m.description, status, priority, m.created_at,
        m.updated_at, m.due_date, m.tags, m.assignee, m.estimated_hours,
        m.actual_hours, m.parent_id, m.position, m.calendar_event_id,
        m.telegram_message_id, some c⟩ := by
  obtain ⟨s, p, hs, hp, hf, ht⟩ := Task.build_ok h
  exact ⟨s, p, hs, hp, ht⟩

/-- Round-trip: serialising a valid task and parsing it back yields the same
task, with the body installed as its content. -/
theorem from_to_frontmatter (t : Task) (hv : ValidTask t) (c : String) :
    from_frontmatter (to_frontmatter t) c = .ok { t with content := some c } := by
  unfold ValidTask at hv
  unfold from_frontmatter to_frontmatter Task.build
  simp only [StatusV.parse, PriorityV.parse, TaskStatus.fromString?_value,
    TaskPriority.fromString?_value_eq]
  rw [if_pos hv]

/-- An on-disk task file: frontmatter mapping plus markdown body. -/
structure File where
  meta : FM
  body : String
deriving DecidableEq, Repr

/-- One directory entry: `<tasks_root>/<dir.value>/<fname>.md` holding `file`. -/
structure Entry where
  dir : TaskStatus
  fname : String
  file : File
deriving DecidableEq, Repr

/-- The filesystem under the tasks root, as a list of entries.  List order
models the (arbitrary) directory-scan order of `glob`. -/
abbrev Store := List Entry

/-- Read the file at `<dir>/<id>.md`, if present. -/
def getFile (st : Store) (dir : TaskStatus) (id : String) : Option File :=
  (st.find? fun e => decide (e.dir = dir) && decide (e.fname = id)).map (·.file)

/-- `Path.unlink` of `<dir>/<id>.md`. -/
def removeFile (st : Store) (dir : TaskStatus) (id : String) : Store :=
  st.filter fun e => !(decide (e.dir = dir) && decide (e.fname = id))

/-- `frontmatter.dump` to `<dir>/<id>.md` (create or overwrite). -/
def setFile (st : Store) (dir : TaskStatus) (id : String) (f : File) : Store :=
  ⟨dir, id, f⟩ :: removeFile st dir id

/-- `TaskService._find_task_file`: scan the status directories in declaration
order for `<id>.md`. -/
def findFile (st : Store) (id : String) : Option (TaskStatus × File) :=
  match getFile st .todo id with
  | some f => some (.todo, f)
  | none =>
    match getFile st .in_progress id with
    | some f => some (.in_progress, f)
    | none =>
      match getFile st .done id with
      | some f => some (.done, f)
      | none => none

/-- Creation payload, the shape of `TaskCreate.model_dump()` (absent keys as
`none`; pydantic defaults are applied at `Task` construction). -/
structure CreateData where
  title : String
  description : Option String := none
  priority : Option PriorityV := none
  due_date : Option Nat := none
  tags : List String := []
  assignee : Option String := none
  estimated_hours : Option Int := none
  parent_id : Option String := none
  position : Option Int := none
  status : Option StatusV := none
  content : Option String := none
deriving DecidableEq, Repr

/-- Update payload, the shape of the dict handed to `update_task` (the router
builds it from `TaskUpdate` with `None` values dropped; `none` = key absent). -/
structure UpdateData where
  title : Option String := none
  description : Option String := none
  status : Option StatusV := none
  priority : Option PriorityV := none
  due_date : Option Nat := none
  tags : Option (List String) := none
  assignee : Option String := none
  estimated_hours : Option Int := none
  actual_hours : Option Int := none
  parent_id : Option String := none
  position : Option Int := none
  content : Option String := none
deriving DecidableEq, Repr

/-- `TaskService._generate_default_content`. -/
def default_content (t : Task) : String :=
  "# " ++ t.title ++ "\n\n" ++
  "## Описание\n\n" ++
  (match t.description with
   | some d => if d = "" then "Описание задачи..." else d
   | none => "Описание задачи...") ++ "\n\n" ++
  "## Требования\n\n" ++
  "- [ ] Требование 1\n" ++
  "- [ ] Требование 2\n\n" ++
  "## Примечания\n\n" ++
  "Дополнительные заметки...\n\n"

/-- The keyword dict `{"id": ..., "created_at": now, "updated_at": now,
**task_data}` that `create_task` hands to `Task(**task_dict)`, after the
status has been coerced and the content popped. -/
def createDict (gid : String) (now : Nat) (d : CreateData)
    (status : TaskStatus) : TaskDict :=
  ⟨gid, d.title, d.description, .enum status,
    d.priority.getD (.enum .medium), now, some now, d.due_date, d.tags,
    d.assignee, d.estimated_hours, none, d.parent_id, d.position.getD 0,
    none, none, none⟩

/-- `TaskService.create_task`.  `gid` is the freshly generated task id
(`task-<uuid4-hex-8>`), `now` the current instant. -/
def create_task (st : Store) (gid : String) (now : Nat) (d : CreateData) :
    Except ValErr (Task × Store) :=
  -- status = task_dict.get("status", TaskStatus.TODO); coerce a raw string
  match (d.status.getD (.enum .todo)).parse with
  | none => .error .invalidStatus
  | some status =>
    -- task = Task(**task_dict)   (content was popped from the dict)
    match Task.build (createDict gid now d status) with
    | .error e => .error e
    | .ok task =>
      -- if not content: content = self._generate_default_content(task)
      let content :=
        match d.content with
        | some c => if c = "" then default_content task else c
        | none => default_content task
      let st' := setFile st status gid ⟨to_frontmatter task, content⟩
      .ok ({ task with content := some content }, st')

/-- `TaskService.get_task`. -/
def get_task (st : Store) (id : String) : Except ValErr (Option Task) :=
  match findFile st id with
  | none => .ok none
  | some (_, f) =>
    match from_frontmatter f.meta f.body with
    | .error e => .error e
    | .ok t => .ok (some t)

/-- Line 286–290 of `update_task`: coerce `update_data.get("status")`. -/
def coerceStatus : Option StatusV → Except ValErr (Option TaskStatus)
  | none => .ok none
  | some (.enum s) => .ok (some s)
  | some (.str s) =>
    match TaskStatus.fromString? s with
    | some v => .ok (some v)
    | none => .error .invalidStatus

/-- `task_dict = current.model_dump(); task_dict.update(update_data);
task_dict["updated_at"] = now`. -/
def mergeDict (current : Task) (u : UpdateData) (now : Nat) : TaskDict where
  id := current.id
  title := u.title.getD current.title
  description := match u.description with
    | some d => some d
    | none => current.description
  status := u.status.getD (.enum current.status)
  priority := u.priority.getD (.enum current.priority)
  created_at := current.created_at
  updated_at := some now
  due_date := match u.due_date with
    | some d => some d
    | none => current.due_date
  tags := u.tags.getD current.tags
  assignee := match u.assignee with
    | some a => some a
    | none => current.assignee
  estimated_hours := match u.estimated_hours with
    | some h => some h
    | none => current.estimated_hours
  actual_hours := match u.actual_hours with
    | some h => some h
    | none => current.actual_hours
  parent_id := match u.parent_id with
    | some p => some p
    | none => current.parent_id
  position := u.position.getD current.position
  calendar_event_id := current.calendar_event_id
  telegram_message_id := current.telegram_message_id
  content := match u.content with
    | some c => some c
    | none => current.content

/-- The pure (pre-filesystem) stage of `update_task`: status coercion, field
merge and `Task(**task_dict)` construction. -/
def updateCompute (current : Task) (u : UpdateData) (now : Nat) :
    Except ValErr (Option TaskStatus × Task) :=
  match coerceStatus u.status with
  | .error e => .error e
  | .ok ns =>
    match Task.build (mergeDict current u now) with
    | .error e => .error e
    | .ok updated => .ok (ns, updated)

/-- `TaskService.update_task`. -/
def update_task (st : Store) (task_id : String) (u : UpdateData) (now : Nat) :
    Except ValErr (Option (Task × Store)) :=
  match findFile st task_id with
  | none => .ok none
  | some (dir, f) =>
    match from_frontmatter f.meta f.body with
    | .error e => .error e
    | .ok current =>
      match updateCompute current u now with
      | .error e => .error e
      | .ok (ns, updated) =>
        -- content = new_content if provided else current content; then `or ""`
        let contentStr :=
          (match u.content with
           | some c => some c
           | none => current.content).getD ""
        -- if status_changed: unlink old file and write under the new status
        let stDir : Store × TaskStatus :=
          match ns with
          | some s =>
            if s ≠ current.status then (removeFile st dir task_id, s)
            else (st, dir)
          | none => (st, dir)
        let st' := setFile stDir.1 stDir.2 task_id
          ⟨to_frontmatter updated, contentStr⟩
        .ok (some ({ updated with content := some contentStr }, st'))

/-- `TaskService.delete_task`. -/
def delete_task (st : Store) (task_id : String) : Bool × Store :=
  match findFile st task_id with
  | none => (false, st)
  | some (dir, _) => (true, removeFile st dir task_id)

/-- `TaskService.move_task`: sugar over `update_task` with
`{"status": new_status, "position": new_position}`. -/
def move_task (st : Store) (task_id : String) (new_status : TaskStatus)
    (new_position : Int) (now : Nat) : Except ValErr (Option (Task × Store)) :=
  update_task st task_id
    { status := some (.enum new_status), position := some new_position } now

/-- One iteration of the `reorder_tasks` loop: skip a missing or unparseable
file, otherwise set `position := pos`, bump `updated_at` and rewrite in
place. -/
def reorderStep (status : TaskStatus) (now : Nat) (st : Store) (pos : Nat)
    (id : String) : Store :=
  match getFile st status id with
  | none => st
  | some f =>
    match from_frontmatter f.meta f.body with
    | .error _ => st
    | .ok t =>
      let t' := { t with position := (pos : Int), updated_at := some now }
      setFile st status id ⟨to_frontmatter t', t'.content.getD ""⟩

/-- Loop body of `TaskService.reorder_tasks` from position counter `pos`. -/
def reorderAux (status : TaskStatus) (now : Nat) :
    Store → Nat → List String → Store
  | st, _, [] => st
  | st, pos, id :: rest =>
    reorderAux status now (reorderStep status now st pos id) (pos + 1) rest

/-- `TaskService.reorder_tasks`. -/
def reorder_tasks (st : Store) (status : TaskStatus) (task_ids : List String)
    (now : Nat) : Bool × Store :=
  (true, reorderAux status now st 0 task_ids)

/-- Python's `str.lower()`. -/
def lowerS (s : String) : String := ⟨s.data.map Char.toLower⟩

/-- Does `hay` start with `needle`? -/
def leadMatch : List Char → List Char → Bool
  | _, [] => true
  | [], _ :: _ => false
  | c :: hs, d :: ns => c == d && leadMatch hs ns

/-- Does `nd` occur contiguously in the character list? -/
def occursAux (nd : List Char) : List Char → Bool
  | [] => nd.isEmpty
  | c :: t => leadMatch (c :: t) nd || occursAux nd t

/-- Python's substring operator `needle in hay`. -/
def strIn (needle hay : String) : Bool := occursAux needle.data hay.data

/-- Mathematical substring relation, for stating the search property. -/
def SubStr (needle hay : String) : Prop :=
  ∃ l r, hay.data = l ++ needle.data ++ r

/-- The in-memory filter of `get_tasks` (applied to each parsed task); empty
strings and empty lists are falsy in Python and deactivate their filter. -/
def keepTask (priority assignee : Option String) (tags : Option (List String))
    (search : Option String) (t : Task) : Bool :=
  (match priority with
   | none => true
   | some p => if p = "" then true else decide (t.priority.value = p)) &&
  (match assignee with
   | none => true
   | some a => if a = "" then true else decide (t.assignee = some a)) &&
  (match tags with
   | none => true
   | some ts => if ts = [] then true else ts.any fun g => t.tags.contains g) &&
  (match search with
   | none => true
   | some q =>
     if q = "" then true
     else
       strIn (lowerS q) (lowerS t.title) ||
         (match t.description with
          | none => false
          | some d => if d = "" then false else strIn (lowerS q) (lowerS d)))

/-- The files of one status directory, in scan order. -/
def entriesIn (st : Store) (s : TaskStatus) : List File :=
  st.filterMap fun e => if e.dir = s then some e.file else none

/-- The directory-scan loop of `get_tasks`: parse each file (skipping files
that fail to parse) and apply the filters. -/
def collectTasks (st : Store) (statuses : List TaskStatus)
    (priority assignee : Option String) (tags : Option (List String))
    (search : Option String) : List Task :=
  statuses.flatMap fun s =>
    (entriesIn st s).filterMap fun f =>
      match from_frontmatter f.meta f.body with
      | .error _ => none
      | .ok t => if keepTask priority assignee tags search t then some t else none

/-- Lexicographic order on character lists by code point (Python `<` on str). -/
def strLtB : List Char → List Char → Bool
  | [], [] => false
  | [], _ :: _ => true
  | _ :: _, [] => false
  | c :: cs, d :: ds =>
    if c.toNat < d.toNat then true
    else if d.toNat < c.toNat then false
    else strLtB cs ds

/-- Order of the `status.value` component of the sort key. -/
def statusLt (a b : TaskStatus) : Bool := strLtB a.value.data b.value.data

/-- The sort order of `tasks.sort(key=lambda t: (t.status.value, t.position))`. -/
def taskLe (a b : Task) : Prop :=
  statusLt a.status b.status = true ∨
    (a.status.value = b.status.value ∧ a.position ≤ b.position)

instance : DecidableRel taskLe := fun a b => by
  unfold taskLe; infer_instance

theorem statusLt_trans {s t u : TaskStatus} (h1 : statusLt s t = true)
    (h2 : statusLt t u = true) : statusLt s u = true := by
  revert h1 h2; cases s <;> cases t <;> cases u <;> decide

theorem statusLt_total (s t : TaskStatus) :
    statusLt s t = true ∨ statusLt t s = true ∨ s.value = t.value := by
  cases s <;> cases t <;> decide

instance : IsTrans Task taskLe :=
  ⟨by
    intro a b c h1 h2
    rcases h1 with h1 | ⟨e1, p1⟩ <;> rcases h2 with h2 | ⟨e2, p2⟩
    · exact Or.inl (statusLt_trans h1 h2)
    · have h := TaskStatus.value_inj e2
      exact Or.inl (h ▸ h1)
    · have h := TaskStatus.value_inj e1
      exact Or.inl (h ▸ h2)
    · exact Or.inr ⟨e1.trans e2, le_trans p1 p2⟩⟩

instance : IsTotal Task taskLe :=
  ⟨by
    intro a b
    rcases statusLt_total a.status b.status with h | h | h
    · exact Or.inl (Or.inl h)
    · exact Or.inr (Or.inl h)
    · rcases le_total a.position b.position with hp | hp
      · exact Or.inl (Or.inr ⟨h, hp⟩)
      · exact Or.inr (Or.inr ⟨h.symm, hp⟩)⟩

/-- `TaskService.get_tasks`: scan the requested status directories, filter in
memory, sort by `(status.value, position)`. -/
def get_tasks (st : Store) (status : Option TaskStatus)
    (priority assignee : Option String) (tags : Option (List String))
    (search : Option String) : List Task :=
  let statuses :=
    match status with
    | some s => [s]
    | none => allStatuses
  List.insertionSort taskLe
    (collectTasks st statuses priority assignee tags search)

/-- The store after a create request: unchanged when the call raised. -/
def storeAfterCreate (st : Store) (gid : String) (now : Nat) (d : CreateData) :
    Store :=
  match create_task st gid now d with
  | .ok (_, st') => st'
  | .error _ => st

/-- The store after an update request: unchanged when the call raised or the
task was missing. -/
def storeAfterUpdate (st : Store) (task_id : String) (u : UpdateData)
    (now : Nat) : Store :=
  match update_task st task_id u now with
  | .ok (some (_, st')) => st'
  | _ => st

/-! ### Store lemmas -/

theorem find?_filter_eq {α : Type _} (p q : α → Bool) (l : List α)
    (h : ∀ a, p a = true → q a = true) : (l.filter q).find? p = l.find? p := by
  induction l with
  | nil => rfl
  | cons a t ih =>
    by_cases hq : q a = true
    · by_cases hp : p a = true <;>
        simp [List.filter_cons, hq, List.find?_cons, hp, ih]
    · have hp : ¬p a = true := fun hp => hq (h a hp)
      simp [List.filter_cons, hq, List.find?_cons, hp, ih]

theorem getFile_setFile_same (st : Store) (d : TaskStatus) (i : String)
    (f : File) : getFile (setFile st d i f) d i = some f := by
  simp [getFile, setFile, List.find?_cons]

theorem getFile_removeFile_ne (st : Store) (d : TaskStatus) (i : String)
    {d' : TaskStatus} {i' : String} (h : ¬(d' = d ∧ i' = i)) :
    getFile (removeFile st d i) d' i' = getFile st d' i' := by
  unfold getFile removeFile
  rw [find?_filter_eq]
  intro e he
  simp only [Bool.and_eq_true, decide_eq_true_eq] at he
  simp only [Bool.not_eq_true']
  by_contra hc
  simp only [Bool.not_eq_false, Bool.and_eq_true, decide_eq_true_eq] at hc
  exact h ⟨he.1 ▸ hc.1, he.2 ▸ hc.2⟩

theorem getFile_setFile_ne (st : Store) (d : TaskStatus) (i : String) (f : File)
    {d' : TaskStatus} {i' : String} (h : ¬(d' = d ∧ i' = i)) :
    getFile (setFile st d i f) d' i' = getFile st d' i' := by
  have hhead : (decide ((⟨d, i, f⟩ : Entry).dir = d') &&
      decide ((⟨d, i, f⟩ : Entry).fname = i')) = false := by
    by_contra hc
    simp only [Bool.not_eq_false, Bool.and_eq_true, decide_eq_true_eq] at hc
    exact h ⟨hc.1.symm, hc.2.symm⟩
  unfold setFile
  show getFile (⟨d, i, f⟩ :: removeFile st d i) d' i' = _
  unfold getFile
  rw [List.find?_cons, hhead]
  exact getFile_removeFile_ne st d i h

theorem getFile_removeFile_same (st : Store) (d : TaskStatus) (i : String) :
    getFile (removeFile st d i) d i = none := by
  unfold getFile removeFile
  rw [List.find?_eq_none.2, Option.map_none']
  intro e he
  have hq := List.of_mem_filter he
  simp only [Bool.not_eq_true'] at hq
  simp only [hq]
  exact Bool.false_ne_true

theorem getFile_some_mem {st : Store} {d : TaskStatus} {i : String} {f : File}
    (h : getFile st d i = some f) : (⟨d, i, f⟩ : Entry) ∈ st := by
  unfold getFile at h
  rcases hf : st.find? fun e => decide (e.dir = d) && decide (e.fname = i) with
    _ | e
  · rw [hf] at h
    exact absurd h (by simp)
  · rw [hf] at h
    have hmem := List.mem_of_find?_eq_some hf
    have hp := List.find?_some hf
    simp only [Bool.and_eq_true, decide_eq_true_eq] at hp
    have hfe : e.file = f := by
      simpa using h
    have : e = ⟨d, i, f⟩ := by
      cases e
      simp_all
    exact this ▸ hmem

theorem mem_removeFile {st : Store} {d : TaskStatus} {i : String} {e : Entry}
    (h : e ∈ removeFile st d i) : e ∈ st ∧ ¬(e.dir = d ∧ e.fname = i) := by
  unfold removeFile at h
  refine ⟨List.mem_of_mem_filter h, ?_⟩
  have hq := List.of_mem_filter h
  simp only [Bool.not_eq_true', Bool.and_eq_false_iff, decide_eq_false_iff_not]
    at hq
  rintro ⟨h1, h2⟩
  rcases hq with hq | hq <;> [exact hq h1; exact hq h2]

theorem mem_setFile {st : Store} {d : TaskStatus} {i : String} {f : File}
    {e : Entry} (h : e ∈ setFile st d i f) :
    e = ⟨d, i, f⟩ ∨ (e ∈ st ∧ ¬(e.dir = d ∧ e.fname = i)) := by
  rcases List.mem_cons.1 h with h | h
  · exact Or.inl h
  · exact Or.inr (mem_removeFile h)

theorem findFile_some_mem {st : Store} {i : String} {dir : TaskStatus}
    {f : File} (h : findFile st i = some (dir, f)) :
    (⟨dir, i, f⟩ : Entry) ∈ st := by
  unfold findFile at h
  rcases h1 : getFile st .todo i with _ | f1 <;> rw [h1] at h
  on_goal 2 =>
    obtain ⟨hd, hf⟩ : TaskStatus.todo = dir ∧ f1 = f := by simpa using h
    exact hd ▸ hf ▸ getFile_some_mem h1
  rcases h2 : getFile st .in_progress i with _ | f2 <;> rw [h2] at h
  on_goal 2 =>
    obtain ⟨hd, hf⟩ : TaskStatus.in_progress = dir ∧ f2 = f := by simpa using h
    exact hd ▸ hf ▸ getFile_some_mem h2
  rcases h3 : getFile st .done i with _ | f3 <;> rw [h3] at h
  · exact absurd h (by simp)
  · obtain ⟨hd, hf⟩ : TaskStatus.done = dir ∧ f3 = f := by simpa using h
    exact hd ▸ hf ▸ getFile_some_mem h3

/-- The task ids present on disk, with multiplicity. -/
def storeIds (st : Store) : List String := st.map (·.fname)

/-- The standing storage invariant of the spec: at most one file per task id,
and every file records the id of its filename and the status naming the
directory that holds it. -/
def ConsistentStore (st : Store) : Prop :=
  (storeIds st).Nodup ∧
    ∀ e ∈ st, e.file.meta.id = e.fname ∧ e.file.meta.status = e.dir.value

instance (st : Store) : Decidable (ConsistentStore st) := by
  unfold ConsistentStore storeIds
  infer_instance

theorem getFile_unique {st : Store} (hnd : (storeIds st).Nodup)
    {dir : TaskStatus} {i : String} {f : File}
    (hm : (⟨dir, i, f⟩ : Entry) ∈ st) {d' : TaskStatus} (hne : d' ≠ dir) :
    getFile st d' i = none := by
  rcases hf : getFile st d' i with _ | f'
  · rfl
  exfalso
  have hm' := getFile_some_mem hf
  have := List.inj_on_of_nodup_map hnd hm' hm rfl
  have : d' = dir := congrArg Entry.dir this
  exact hne this

theorem fname_ne_of_mem_removeFile {st : Store} (hnd : (storeIds st).Nodup)
    {dir : TaskStatus} {i : String} {f : File}
    (hm : (⟨dir, i, f⟩ : Entry) ∈ st) :
    ∀ e ∈ removeFile st dir i, e.fname ≠ i := by
  intro e he hei
  obtain ⟨hest, hkey⟩ := mem_removeFile he
  have : e = ⟨dir, i, f⟩ := List.inj_on_of_nodup_map hnd hest hm hei
  exact hkey ⟨congrArg Entry.dir this, hei⟩

theorem nodup_removeFile {st : Store} (hnd : (storeIds st).Nodup)
    (d : TaskStatus) (i : String) : (storeIds (removeFile st d i)).Nodup := by
  unfold storeIds removeFile
  exact hnd.sublist ((List.filter_sublist st).map _)

/-! ### Operation characterizations -/

theorem SubStr_refl (s : String) : SubStr s s := ⟨[], [], by simp⟩

theorem findFile_setFile_fresh {st : Store} {i : String}
    (hfresh : ∀ dir, getFile st dir i = none) (d : TaskStatus) (f : File) :
    findFile (setFile st d i f) i = some (d, f) := by
  have hne : ∀ d', d' ≠ d → getFile (setFile st d i f) d' i = none := by
    intro d' hd'
    rw [getFile_setFile_ne st d i f (fun hc => hd' hc.1)]
    exact hfresh d'
  have hsame := getFile_setFile_same st d i f
  cases d with
  | todo => unfold findFile; rw [hsame]
  | in_progress =>
    unfold findFile
    rw [hne .todo (by decide), hsame]
  | done =>
    unfold findFile
    rw [hne .todo (by decide), hne .in_progress (by decide), hsame]

/-- What a successful `create_task` did: coerced the status, built and
validated the task, resolved the body, wrote one file. -/
theorem create_task_ok {st : Store} {gid : String} {now : Nat} {d : CreateData}
    {t : Task} {st' : Store} (h : create_task st gid now d = .ok (t, st')) :
    ∃ status task content,
      (d.status.getD (.enum .todo)).parse = some status ∧
      Task.build (createDict gid now d status) = .ok task ∧
      content = (match d.content with
        | some c => if c = "" then default_content task else c
        | none => default_content task) ∧
      t = { task with content := some content } ∧
      st' = setFile st status gid ⟨to_frontmatter task, content⟩ := by
  rcases hs : (d.status.getD (.enum .todo)).parse with _ | status
  · simp [create_task, hs] at h
  rcases hb : Task.build (createDict gid now d status) with e | task
  · simp [create_task, hs, hb] at h
  have := h
  simp only [create_task, hs, hb, Except.ok.injEq, Prod.mk.injEq] at this
  exact ⟨status, task,
    (match d.content with
     | some c => if c = "" then default_content task else c
     | none => default_content task), rfl, by rw [hb], rfl, this.1.symm,
    this.2.symm⟩

/-- C1.  Round-trip: for every valid creation input (and a fresh generated
id, as the uuid contract guarantees), creating a task and reading it back by
the returned id yields a task agreeing with the created one on id, title,
description, status, priority, due date, tags, assignee, estimated and actual
hours, parent id, position and the external reference ids, and whose content
contains the created body verbatim. -/
theorem c1_create_get_roundtrip (st : Store) (gid : String) (now : Nat)
    (d : CreateData) (t : Task) (st' : Store)
    (hfresh : ∀ dir, getFile st dir gid = none)
    (hok : create_task st gid now d = .ok (t, st')) :
    ∃ got, get_task st' gid = .ok (some got) ∧
      got.id = t.id ∧ got.title = t.title ∧
      got.description = t.description ∧ got.status = t.status ∧
      got.priority = t.priority ∧ got.due_date = t.due_date ∧
      got.tags = t.tags ∧ got.assignee = t.assignee ∧
      got.estimated_hours = t.estimated_hours ∧
      got.actual_hours = t.actual_hours ∧ got.parent_id = t.parent_id ∧
      got.position = t.position ∧
      got.calendar_event_id = t.calendar_event_id ∧
      got.telegram_message_id = t.telegram_message_id ∧
      SubStr (t.content.getD "") (got.content.getD "") := by
  obtain ⟨status, task, content, hs, hb, hc, ht, hst⟩ := create_task_ok hok
  have hv : ValidTask task := Task.build_valid hb
  have hff : findFile st' gid = some (status, ⟨to_frontmatter task, content⟩) :=
    hst ▸ findFile_setFile_fresh hfresh status ⟨to_frontmatter task, content⟩
  have hparse := from_to_frontmatter task hv content
  refine ⟨{ task with content := some content }, ?_, ?_⟩
  · unfold get_task
    rw [hff]
    show (match from_frontmatter (to_frontmatter task) content with
      | .error e => Except.error e
      | .ok t => Except.ok (some t)) = _
    rw [hparse]
  · subst ht
    refine ⟨rfl, rfl, rfl, rfl, rfl, rfl, rfl, rfl, rfl, rfl, rfl, rfl, rfl,
      rfl, ?_⟩
    exact SubStr_refl content

/-! ### Concrete example data -/

def exCreate : CreateData :=
  { title := "Alpha", description := some "First task", tags := ["x", "y"],
    content := some "hello body" }

def exTask : Task :=
  ⟨"task-1", "Alpha", some "First task", .todo, .medium, 100, some 100, none,
    ["x", "y"], none, none, none, none, 0, none, none, some "hello body"⟩

def exFile : File := ⟨to_frontmatter exTask, "hello body"⟩

def exStore : Store := [⟨.todo, "task-1", exFile⟩]

/-- Witness for C1 at a concrete creation. -/
theorem c1_create_get_roundtrip_witness :
    ∃ got, get_task exStore "task-1" = .ok (some got) ∧
      got.id = exTask.id ∧ got.title = exTask.title ∧
      got.description = exTask.description ∧ got.status = exTask.status ∧
      got.priority = exTask.priority ∧ got.due_date = exTask.due_date ∧
      got.tags = exTask.tags ∧ got.assignee = exTask.assignee ∧
      got.estimated_hours = exTask.estimated_hours ∧
      got.actual_hours = exTask.actual_hours ∧
      got.parent_id = exTask.parent_id ∧ got.position = exTask.position ∧
      got.calendar_event_id = exTask.calendar_event_id ∧
      got.telegram_message_id = exTask.telegram_message_id ∧
      SubStr (exTask.content.getD "") (got.content.getD "") :=
  c1_create_get_roundtrip [] "task-1" 100 exCreate exTask exStore
    (fun _ => rfl) rfl

/-- C8.  Every listing is sorted by the pair (status, position): the status
groups are ordered by the implementation's order on the status values
(lexicographic on the enum's value strings), and positions are nondecreasing
within each status group. -/
theorem c8_listing_sorted (st : Store) (status : Option TaskStatus)
    (priority assignee : Option String) (tags : Option (List String))
    (search : Option String) :
    (get_tasks st status priority assignee tags search).Pairwise
      (fun a b => statusLt a.status b.status = true ∨
        (a.status = b.status ∧ a.position ≤ b.position)) := by
  have hs := List.sorted_insertionSort taskLe
    (collectTasks st
      (match status with
       | some s => [s]
       | none => allStatuses) priority assignee tags search)
  refine List.Pairwise.imp ?_ hs
  intro a b hab
  rcases hab with h | ⟨hv, hp⟩
  · exact Or.inl h
  · exact Or.inr ⟨TaskStatus.value_inj hv, hp⟩

/-- C9.  `move_task(id, s, p)` is literally `update_task(id, {"status": s,
"position": p})`: same returned value and same resulting store. -/
theorem c9_move_is_update (st : Store) (task_id : String) (s : TaskStatus)
    (p : Int) (now : Nat) :
    move_task st task_id s p now =
      update_task st task_id
        { title := none, description := none, status := some (.enum s),
          priority := none, due_date := none, tags := none, assignee := none,
          estimated_hours := none, actual_hours := none, parent_id := none,
          position := some p, content := none } now := rfl

theorem Task.build_of_ok (d : TaskDict) {s : TaskStatus} {p : TaskPriority}
    (hs : d.status.parse = some s) (hp : d.priority.parse = some p)
    (hf : fieldsOk d.title d.estimated_hours d.actual_hours d.position = true) :
    Task.build d = .ok ⟨d.id, d.title, d.description, s, p, d.created_at,
      d.updated_at, d.due_date, d.tags, d.assignee, d.estimated_hours,
      d.actual_hours, d.parent_id, d.position, d.calendar_event_id,
      d.telegram_message_id, d.content⟩ := by
  simp only [Task.build, hs, hp, if_pos hf]

/-- C3.  For a task stored in the todo directory, updating it to status
"done" removes the todo file, writes the task under the done directory, and
the persisted and returned task keeps the same id and every field other than
status and the update timestamp — including the body. -/
theorem c3_status_update_moves_file (st : Store) (id : String) (f : File)
    (t : Task) (now : Nat)
    (hget : getFile st .todo id = some f)
    (hparse : from_frontmatter f.meta f.body = .ok t)
    (hstat : t.status = .todo) :
    ∃ st', update_task st id { status := some (.str "done") } now =
        .ok (some ({ t with status := .done, updated_at := some now }, st')) ∧
      getFile st' .todo id = none ∧
      getFile st' .done id = some
        ⟨to_frontmatter { t with status := .done, updated_at := some now },
          f.body⟩ := by
  have hv : ValidTask t := Task.build_valid hparse
  obtain ⟨s0, p0, hs0, hp0, ht⟩ := from_frontmatter_ok hparse
  have hct : t.content = some f.body := by rw [ht]
  have hfind : findFile st id = some (.todo, f) := by
    unfold findFile
    rw [hget]
  have hb : Task.build
      (mergeDict t { status := some (.str "done") } now) =
      .ok { t with status := .done, updated_at := some now } := by
    have := Task.build_of_ok
      (mergeDict t { status := some (.str "done") } now)
      (s := .done) (p := t.priority) rfl rfl hv
    rw [this]
    rfl
  have hupd : updateCompute t { status := some (.str "done") } now =
      .ok (some .done, { t with status := .done, updated_at := some now }) := by
    unfold updateCompute
    simp only [hb]
    rfl
  refine ⟨setFile (removeFile st .todo id) .done id
    ⟨to_frontmatter { t with status := .done, updated_at := some now },
      f.body⟩, ?_, ?_, ?_⟩
  · unfold update_task
    rw [hfind]
    simp only [hparse, hupd, hstat, hct]
    rfl
  · rw [getFile_setFile_ne _ _ _ _ (by rintro ⟨h, -⟩; cases h)]
    exact getFile_removeFile_same st .todo id
  · exact getFile_setFile_same _ .done id _

def exTaskDone : Task := { exTask with status := .done, updated_at := some 200 }

/-- Witness for C3 at the concrete example store. -/
theorem c3_status_update_moves_file_witness :
    ∃ st', update_task exStore "task-1"
        { status := some (.str "done") } 200 =
        .ok (some (exTaskDone, st')) ∧
      getFile st' .todo "task-1" = none ∧
      getFile st' .done "task-1" = some
        ⟨to_frontmatter exTaskDone, "hello body"⟩ :=
  c3_status_update_moves_file exStore "task-1" exFile exTask 200 rfl rfl rfl

/-- C7.  Deleting an existing task returns true and removes its file; a get
by that id afterwards returns the absent sentinel and a second delete returns
false leaving the store unchanged.  Deleting an absent id returns false and
leaves the store unchanged. -/
theorem c7_delete_semantics (st : Store) (id : String)
    (hnd : (storeIds st).Nodup) :
    (∀ dir f, findFile st id = some (dir, f) →
      delete_task st id = (true, removeFile st dir id) ∧
      get_task (removeFile st dir id) id = .ok none ∧
      delete_task (removeFile st dir id) id =
        (false, removeFile st dir id)) ∧
    (findFile st id = none → delete_task st id = (false, st)) := by
  constructor
  · intro dir f hfind
    have hnone : ∀ d', getFile (removeFile st dir id) d' id = none := by
      intro d'
      by_cases hd : d' = dir
      · subst hd
        exact getFile_removeFile_same st d' id
      · rw [getFile_removeFile_ne st dir id (fun hc => hd hc.1)]
        exact getFile_unique hnd (findFile_some_mem hfind) hd
    have hffnone : findFile (removeFile st dir id) id = none := by
      unfold findFile
      rw [hnone .todo, hnone .in_progress, hnone .done]
    refine ⟨?_, ?_, ?_⟩
    · unfold delete_task
      rw [hfind]
    · unfold get_task
      rw [hffnone]
    · unfold delete_task
      rw [hffnone]
  · intro hfind
    unfold delete_task
    rw [hfind]

/-- Witness for C7 at the concrete example store. -/
theorem c7_delete_semantics_witness :
    delete_task exStore "task-1" =
      (true, removeFile exStore .todo "task-1") ∧
    get_task (removeFile exStore .todo "task-1") "task-1" = .ok none ∧
    delete_task (removeFile exStore .todo "task-1") "task-1" =
      (false, removeFile exStore .todo "task-1") :=
  (c7_delete_semantics exStore "task-1" (by decide)).1 .todo exFile rfl

theorem Task.build_error_of_bad (d : TaskDict)
    (hf : fieldsOk d.title d.estimated_hours d.actual_hours d.position =
      false) : ∃ e, Task.build d = .error e := by
  rcases hs : d.status.parse with _ | s
  · exact ⟨.invalidStatus, by simp [Task.build, hs]⟩
  rcases hp : d.priority.parse with _ | p
  · exact ⟨.invalidPriority, by simp [Task.build, hs, hp]⟩
  exact ⟨.invalidFields, by simp [Task.build, hs, hp, hf]⟩

/-- C6.  A creation input with an empty title, an over-length title, an
invalid priority value, or negative estimated hours is rejected with a
validation error and nothing is written: the store is unchanged. -/
theorem c6_create_validation (st : Store) (gid : String) (now : Nat)
    (d : CreateData)
    (hbad : d.title = "" ∨ 200 < d.title.length ∨
      (∃ p, d.priority = some (.str p) ∧
        TaskPriority.fromString? p = none) ∨
      (∃ h, d.estimated_hours = some h ∧ h < 0)) :
    (∃ e, create_task st gid now d = .error e) ∧
      storeAfterCreate st gid now d = st := by
  have herr : ∃ e, create_task st gid now d = .error e := by
    rcases hs : (d.status.getD (.enum .todo)).parse with _ | status
    · exact ⟨.invalidStatus, by unfold create_task; rw [hs]⟩
    have build_err : ∀ e,
        Task.build (createDict gid now d status) = .error e →
        create_task st gid now d = .error e := by
      intro e hb
      unfold create_task
      rw [hs]
      simp only [hb]
    rcases hbad with ht | hlen | ⟨p, hpr, hnone⟩ | ⟨h, he, hneg⟩
    · have hf : fieldsOk (createDict gid now d status).title
          (createDict gid now d status).estimated_hours
          (createDict gid now d status).actual_hours
          (createDict gid now d status).position = false := by
        show fieldsOk d.title _ _ _ = false
        rw [ht]
        rfl
      obtain ⟨e, hb⟩ := Task.build_error_of_bad (createDict gid now d status) hf
      exact ⟨e, build_err e hb⟩
    · have hb2 : decide (d.title.length ≤ 200) = false :=
        decide_eq_false (by omega)
      have hf : fieldsOk (createDict gid now d status).title
          (createDict gid now d status).estimated_hours
          (createDict gid now d status).actual_hours
          (createDict gid now d status).position = false := by
        show fieldsOk d.title _ _ _ = false
        simp [fieldsOk, hb2]
      obtain ⟨e, hb⟩ := Task.build_error_of_bad (createDict gid now d status) hf
      exact ⟨e, build_err e hb⟩
    · refine ⟨.invalidPriority, build_err _ ?_⟩
      simp [Task.build, createDict, StatusV.parse, PriorityV.parse, hpr, hnone]
    · have hh : hoursOk d.estimated_hours = false := by
        rw [he]
        unfold hoursOk
        exact decide_eq_false (by omega)
      have hf : fieldsOk (createDict gid now d status).title
          (createDict gid now d status).estimated_hours
          (createDict gid now d status).actual_hours
          (createDict gid now d status).position = false := by
        show fieldsOk d.title d.estimated_hours _ _ = false
        simp [fieldsOk, hh]
      obtain ⟨e, hb⟩ := Task.build_error_of_bad (createDict gid now d status) hf
      exact ⟨e, build_err e hb⟩
  obtain ⟨e, he⟩ := herr
  refine ⟨⟨e, he⟩, ?_⟩
  unfold storeAfterCreate
  rw [he]

/-- Witness for C6: empty title on an empty store. -/
theorem c6_create_validation_witness :
    (∃ e, create_task [] "task-9" 5 { title := "" } = .error e) ∧
      storeAfterCreate [] "task-9" 5 { title := "" } = [] :=
  c6_create_validation [] "task-9" 5 { title := "" } (Or.inl rfl)

/-- C10.  An update whose merged field values are invalid (empty title,
negative estimated hours, unknown status string) raises a validation error
before any file operation: the stored file is neither deleted nor rewritten. -/
theorem c10_update_validation_atomic (st : Store) (id : String)
    (u : UpdateData) (now : Nat) (dir : TaskStatus) (f : File)
    (hfind : findFile st id = some (dir, f))
    (hbad : u.title = some "" ∨
      (∃ h, u.estimated_hours = some h ∧ h < 0) ∨
      (∃ s, u.status = some (.str s) ∧ TaskStatus.fromString? s = none)) :
    (∃ e, update_task st id u now = .error e) ∧
      storeAfterUpdate st id u now = st := by
  have herr : ∃ e, update_task st id u now = .error e := by
    rcases hparse : from_frontmatter f.meta f.body with e | current
    · exact ⟨e, by unfold update_task; rw [hfind]; simp only [hparse]⟩
    have hcu : ∃ e, updateCompute current u now = .error e := by
      rcases hbad with ht | ⟨h, hue, hneg⟩ | ⟨s, hus, hnone⟩
      · rcases hcs : coerceStatus u.status with e | ns
        · exact ⟨e, by unfold updateCompute; rw [hcs]⟩
        have hmt : (mergeDict current u now).title = "" := by
          simp [mergeDict, ht]
        have hf : fieldsOk (mergeDict current u now).title
            (mergeDict current u now).estimated_hours
            (mergeDict current u now).actual_hours
            (mergeDict current u now).position = false := by
          rw [hmt]
          rfl
        obtain ⟨e, hb⟩ := Task.build_error_of_bad (mergeDict current u now) hf
        exact ⟨e, by unfold updateCompute; rw [hcs]; simp only [hb]⟩
      · rcases hcs : coerceStatus u.status with e | ns
        · exact ⟨e, by unfold updateCompute; rw [hcs]⟩
        have hme : (mergeDict current u now).estimated_hours = some h := by
          simp [mergeDict, hue]
        have hh : hoursOk (mergeDict current u now).estimated_hours = false := by
          rw [hme]
          unfold hoursOk
          exact decide_eq_false (by omega)
        have hf : fieldsOk (mergeDict current u now).title
            (mergeDict current u now).estimated_hours
            (mergeDict current u now).actual_hours
            (mergeDict current u now).position = false := by
          simp [fieldsOk, hh]
        obtain ⟨e, hb⟩ := Task.build_error_of_bad (mergeDict current u now) hf
        exact ⟨e, by unfold updateCompute; rw [hcs]; simp only [hb]⟩
      · have hcs : coerceStatus u.status = .error .invalidStatus := by
          rw [hus]
          simp only [coerceStatus, hnone]
        exact ⟨.invalidStatus, by unfold updateCompute; rw [hcs]⟩
    obtain ⟨e, hce⟩ := hcu
    exact ⟨e, by unfold update_task; rw [hfind]; simp only [hparse, hce]⟩
  obtain ⟨e, he⟩ := herr
  refine ⟨⟨e, he⟩, ?_⟩
  unfold storeAfterUpdate
  rw [he]

/-- Witness for C10: empty-title update against the concrete store. -/
theorem c10_update_validation_atomic_witness :
    (∃ e, update_task exStore "task-1" { title := some "" } 300 =
      .error e) ∧
    storeAfterUpdate exStore "task-1" { title := some "" } 300 = exStore :=
  c10_update_validation_atomic exStore "task-1" { title := some "" } 300
    .todo exFile rfl (Or.inl rfl)

/-! ### Consistency preservation (C2) -/

theorem coerceStatus_ok_some {o : Option StatusV} {s : TaskStatus}
    (h : coerceStatus o = .ok (some s)) :
    ∃ v, o = some v ∧ v.parse = some s := by
  rcases o with _ | v
  · exact absurd h (by simp [coerceStatus])
  rcases v with x | str
  · refine ⟨.enum x, rfl, ?_⟩
    have : x = s := by simpa [coerceStatus] using h
    simp [StatusV.parse, this]
  · refine ⟨.str str, rfl, ?_⟩
    rcases hf : TaskStatus.fromString? str with _ | v'
    · simp [coerceStatus, hf] at h
    · have : v' = s := by simpa [coerceStatus, hf] using h
      simp [StatusV.parse, hf, this]

theorem coerceStatus_ok_none {o : Option StatusV}
    (h : coerceStatus o = .ok none) : o = none := by
  rcases o with _ | v
  · rfl
  rcases v with x | str
  · simp [coerceStatus] at h
  · rcases hf : TaskStatus.fromString? str with _ | v'
    · simp [coerceStatus, hf] at h
    · simp [coerceStatus, hf] at h

/-- What a successful `update_task` did: located and parsed the file, merged
and validated, then either moved the file (status change) or overwrote it in
place. -/
theorem update_task_ok {st : Store} {id : String} {u : UpdateData} {now : Nat}
    {t' : Task} {st' : Store}
    (h : update_task st id u now = .ok (some (t', st'))) :
    ∃ dir f current ns updated,
      findFile st id = some (dir, f) ∧
      from_frontmatter f.meta f.body = .ok current ∧
      coerceStatus u.status = .ok ns ∧
      Task.build (mergeDict current u now) = .ok updated ∧
      t' = { updated with content := some ((match u.content with
        | some c => some c
        | none => current.content).getD "") } ∧
      ((∃ s, ns = some s ∧ s ≠ current.status ∧
          st' = setFile (removeFile st dir id) s id
            ⟨to_frontmatter updated, (match u.content with
              | some c => some c
              | none => current.content).getD ""⟩) ∨
        ((ns = none ∨ ns = some current.status) ∧
          st' = setFile st dir id
            ⟨to_frontmatter updated, (match u.content with
              | some c => some c
              | none => current.content).getD ""⟩)) := by
  rcases hfind : findFile st id with _ | df
  · simp [update_task, hfind] at h
  obtain ⟨dir, f⟩ := df
  rcases hparse : from_frontmatter f.meta f.body with e | current
  · simp [update_task, hfind, hparse] at h
  rcases hcs : coerceStatus u.status with e | ns
  · simp [update_task, hfind, hparse, updateCompute, hcs] at h
  rcases hb : Task.build (mergeDict current u now) with e | updated
  · simp [update_task, hfind, hparse, updateCompute, hcs, hb] at h
  refine ⟨dir, f, current, ns, updated, rfl, hparse, rfl, hb, ?_⟩
  have h' := h
  simp only [update_task, hfind, hparse, updateCompute, hcs, hb] at h'
  rcases ns with _ | s
  · simp only [Except.ok.injEq, Option.some.injEq, Prod.mk.injEq] at h'
    exact ⟨h'.1.symm, Or.inr ⟨Or.inl rfl, h'.2.symm⟩⟩
  · by_cases hss : s = current.status
    · subst hss
      simp only [ne_eq, not_true_eq_false, if_false, ite_self,
        Except.ok.injEq, Option.some.injEq, Prod.mk.injEq] at h'
      exact ⟨h'.1.symm, Or.inr ⟨Or.inr rfl, h'.2.symm⟩⟩
    · simp only [ne_eq, hss, not_false_eq_true, if_true, Except.ok.injEq,
        Option.some.injEq, Prod.mk.injEq] at h'
      exact ⟨h'.1.symm, Or.inl ⟨s, rfl, hss, h'.2.symm⟩⟩

/-- Replacing nothing and consing a well-recorded entry whose id is absent
from the base keeps the store consistent. -/
theorem consistent_cons {st stb : Store} (hc : ConsistentStore st)
    (hsub : ∀ e ∈ stb, e ∈ st) (hnd : (storeIds stb).Nodup)
    {wd : TaskStatus} {id : String} {fl : File}
    (hno : ∀ e ∈ stb, e.fname ≠ id)
    (hid : fl.meta.id = id) (hstat : fl.meta.status = wd.value) :
    ConsistentStore (⟨wd, id, fl⟩ :: stb) := by
  constructor
  · simp only [storeIds, List.map_cons, List.nodup_cons]
    refine ⟨?_, hnd⟩
    intro hmem
    obtain ⟨e, he, hee⟩ := List.mem_map.1 hmem
    exact hno e he hee
  · intro e he
    rcases List.mem_cons.1 he with rfl | he
    · exact ⟨hid, hstat⟩
    · exact hc.2 e (hsub e he)

theorem consistent_create {st : Store} {gid : String} {now : Nat}
    {d : CreateData} {t : Task} {st' : Store} (hc : ConsistentStore st)
    (hfresh : gid ∉ storeIds st)
    (hok : create_task st gid now d = .ok (t, st')) : ConsistentStore st' := by
  obtain ⟨status, task, content, hs, hb, hcnt, ht, hst⟩ := create_task_ok hok
  obtain ⟨s1, p1, hs1, hp1, hf1, htask⟩ := Task.build_ok hb
  have hs1' : s1 = status := by
    have h2 : StatusV.parse (createDict gid now d status).status = some s1 :=
      hs1
    have h3 : status = s1 := by
      simpa [createDict, StatusV.parse] using h2
    exact h3.symm
  have hidf : task.id = gid := by
    rw [htask]
    rfl
  have hstf : task.status = status := by
    rw [htask]
    exact hs1'
  subst hst
  refine consistent_cons hc (fun e he => (mem_removeFile he).1)
    (nodup_removeFile hc.1 _ _) ?_ ?_ ?_
  · intro e he hei
    refine hfresh ?_
    unfold storeIds
    exact List.mem_map.2 ⟨e, (mem_removeFile he).1, hei⟩
  · show task.id = gid
    exact hidf
  · show task.status.value = status.value
    rw [hstf]

theorem consistent_update {st : Store} {id : String} {u : UpdateData}
    {now : Nat} {t' : Task} {st' : Store} (hc : ConsistentStore st)
    (hok : update_task st id u now = .ok (some (t', st'))) :
    ConsistentStore st' := by
  obtain ⟨dir, f, current, ns, updated, hfind, hparse, hcs, hb, ht', hcase⟩ :=
    update_task_ok hok
  have hmem := findFile_some_mem hfind
  obtain ⟨hmid, hmstat⟩ := hc.2 _ hmem
  obtain ⟨s0, p0, hs0, hp0, hcur⟩ := from_frontmatter_ok hparse
  have hcurid : current.id = id := by rw [hcur]; exact hmid
  have hcurstat : current.status = dir := by
    have h1 : current.status = s0 := by rw [hcur]
    have h2 : TaskStatus.fromString? dir.value = some s0 := hmstat ▸ hs0
    rw [TaskStatus.fromString?_value dir] at h2
    rw [h1, ← Option.some.inj h2]
  obtain ⟨s1, p1, hs1, hp1', hf1, hupd⟩ := Task.build_ok hb
  have hupdid : updated.id = id := by
    rw [hupd]
    show (mergeDict current u now).id = id
    exact hcurid
  have hupdstat : updated.status = s1 := by rw [hupd]
  rcases hcase with ⟨s, hns, hsne, hst⟩ | ⟨hns, hst⟩
  · -- status changed: moved to directory s
    subst hns hst
    obtain ⟨v, huv, hvp⟩ := coerceStatus_ok_some hcs
    have hs1s : s1 = s := by
      have h2 : StatusV.parse (u.status.getD (.enum current.status)) =
          some s1 := hs1
      rw [huv] at h2
      simp only [Option.getD_some] at h2
      rw [hvp] at h2
      exact (Option.some.inj h2).symm
    refine consistent_cons hc ?_ ?_ ?_ ?_ ?_
    · intro e he
      exact (mem_removeFile (mem_removeFile he).1).1
    · exact nodup_removeFile (nodup_removeFile hc.1 _ _) _ _
    · intro e he
      exact fname_ne_of_mem_removeFile hc.1 hmem _ (mem_removeFile he).1
    · exact hupdid
    · show updated.status.value = s.value
      rw [hupdstat, hs1s]
  · -- status unchanged: overwrite in place
    subst hst
    have hs1dir : s1 = dir := by
      rcases hns with hns | hns
      · have hun : u.status = none := coerceStatus_ok_none (hns ▸ hcs)
        have : StatusV.parse (u.status.getD (.enum current.status)) =
            some s1 := hs1
        rw [hun] at this
        simp [StatusV.parse] at this
        rw [← this, hcurstat]
      · obtain ⟨v, huv, hvp⟩ := coerceStatus_ok_some (hns ▸ hcs)
        have h2 : StatusV.parse (u.status.getD (.enum current.status)) =
            some s1 := hs1
        rw [huv] at h2
        simp only [Option.getD_some] at h2
        rw [hvp] at h2
        have h3 := Option.some.inj h2
        rw [← h3, hcurstat]
    refine consistent_cons hc (fun e he => (mem_removeFile he).1)
      (nodup_removeFile hc.1 _ _)
      (fname_ne_of_mem_removeFile hc.1 hmem) hupdid ?_
    show updated.status.value = dir.value
    rw [hupdstat, hs1dir]

/-- C2.  Starting from a consistent store (one file per task id, stored under
the directory named by its recorded status), every successful `create_task`
(with a fresh generated id), `update_task` and `move_task` leaves the store
consistent. -/
theorem c2_status_directory_invariant (st : Store) (hc : ConsistentStore st) :
    (∀ gid now d t st', gid ∉ storeIds st →
      create_task st gid now d = .ok (t, st') → ConsistentStore st') ∧
    (∀ id u now t st',
      update_task st id u now = .ok (some (t, st')) → ConsistentStore st') ∧
    (∀ id s p now t st',
      move_task st id s p now = .ok (some (t, st')) → ConsistentStore st') :=
  ⟨fun _ _ _ _ _ hfresh hok => consistent_create hc hfresh hok,
    fun _ _ _ _ _ hok => consistent_update hc hok,
    fun _ _ _ _ _ _ hok => consistent_update hc hok⟩

/-- Witness for C2: the store after a concrete status-changing update. -/
theorem c2_status_directory_invariant_witness :
    ConsistentStore (setFile (removeFile exStore .todo "task-1") .done
      "task-1" ⟨to_frontmatter exTaskDone, "hello body"⟩) :=
  (c2_status_directory_invariant exStore (by decide)).2.1 "task-1"
    { status := some (.str "done") } 200 exTaskDone _ rfl

/-! ### Reorder (C4) -/

/-- What one reorder iteration leaves at `<status>/<id>.md`. -/
def reorderResult (status : TaskStatus) (now : Nat) (st : Store) (pos : Nat)
    (id : String) : Option File :=
  match getFile st status id with
  | none => none
  | some f =>
    match from_frontmatter f.meta f.body with
    | .error _ => some f
    | .ok t =>
      let t' := { t with position := (pos : Int), updated_at := some now }
      some ⟨to_frontmatter t', t'.content.getD ""⟩

theorem reorderStep_getFile_same (status : TaskStatus) (now : Nat)
    (st : Store) (pos : Nat) (id : String) :
    getFile (reorderStep status now st pos id) status id =
      reorderResult status now st pos id := by
  unfold reorderStep reorderResult
  rcases hget : getFile st status id with _ | f
  · exact hget
  dsimp only
  rcases hp : from_frontmatter f.meta f.body with e | t
  · exact hget
  · exact getFile_setFile_same st status id _

theorem reorderStep_getFile_ne (status : TaskStatus) (now : Nat) (st : Store)
    (pos : Nat) (a : String) {dir : TaskStatus} {id : String}
    (h : ¬(dir = status ∧ id = a)) :
    getFile (reorderStep status now st pos a) dir id = getFile st dir id := by
  unfold reorderStep
  rcases hget : getFile st status a with _ | f
  · rfl
  dsimp only
  rcases hp : from_frontmatter f.meta f.body with e | t
  · rfl
  · exact getFile_setFile_ne st status a _ h

theorem reorderAux_untouched (status : TaskStatus) (now : Nat)
    (ids : List String) : ∀ (st : Store) (pos : Nat) {dir : TaskStatus}
    {id : String}, ¬(dir = status ∧ id ∈ ids) →
    getFile (reorderAux status now st pos ids) dir id = getFile st dir id := by
  induction ids with
  | nil =>
    intro st pos dir id _
    rfl
  | cons a rest ih =>
    intro st pos dir id h
    have hrest : ¬(dir = status ∧ id ∈ rest) := by
      rintro ⟨h1, h2⟩
      exact h ⟨h1, List.mem_cons_of_mem a h2⟩
    have hkey : ¬(dir = status ∧ id = a) := by
      rintro ⟨h1, h2⟩
      exact h ⟨h1, h2 ▸ List.mem_cons_self a rest⟩
    show getFile (reorderAux status now (reorderStep status now st pos a)
      (pos + 1) rest) dir id = getFile st dir id
    rw [ih _ _ hrest]
    exact reorderStep_getFile_ne status now st pos a hkey

theorem reorderAux_listed (status : TaskStatus) (now : Nat)
    (ids : List String) : ∀ (st : Store) (pos : Nat), ids.Nodup →
    ∀ i (h : i < ids.length),
    getFile (reorderAux status now st pos ids) status (ids.get ⟨i, h⟩) =
      reorderResult status now st (pos + i) (ids.get ⟨i, h⟩) := by
  induction ids with
  | nil =>
    intro st pos _ i h
    exact absurd h (Nat.not_lt_zero i)
  | cons a rest ih =>
    intro st pos hnd i h
    obtain ⟨ha, hndr⟩ := List.nodup_cons.1 hnd
    rcases i with _ | j
    · show getFile (reorderAux status now (reorderStep status now st pos a)
        (pos + 1) rest) status a = reorderResult status now st (pos + 0) a
      rw [reorderAux_untouched status now rest _ _
        (fun hc => ha hc.2), reorderStep_getFile_same]
      rw [Nat.add_zero]
    · have hj : j < rest.length := Nat.lt_of_succ_lt_succ h
      show getFile (reorderAux status now (reorderStep status now st pos a)
        (pos + 1) rest) status (rest.get ⟨j, hj⟩) = _
      rw [ih _ _ hndr j hj]
      have hne : ¬(status = status ∧ rest.get ⟨j, hj⟩ = a) := by
        rintro ⟨-, h2⟩
        exact ha (h2 ▸ rest.get_mem j hj)
      have harith : pos + 1 + j = pos + (j + 1) := by omega
      unfold reorderResult
      rw [reorderStep_getFile_ne status now st pos a hne, harith]
      rfl

/-- C4.  Reordering a column assigns to each listed id whose file exists in
that status directory the position equal to its zero-based index in the list
(rewriting the file in place, with a bumped update timestamp); listed ids
with no file there are skipped, and no other file is touched. -/
theorem c4_reorder_positions (st : Store) (status : TaskStatus)
    (ids : List String) (now : Nat) (hnd : ids.Nodup) :
    (∀ i (h : i < ids.length) f t,
      getFile st status (ids.get ⟨i, h⟩) = some f →
      from_frontmatter f.meta f.body = .ok t →
      getFile (reorder_tasks st status ids now).2 status (ids.get ⟨i, h⟩) =
        some ⟨to_frontmatter { t with position := (i : Int), updated_at := some now }, t.content.getD ""⟩) ∧
    (∀ i (h : i < ids.length),
      getFile st status (ids.get ⟨i, h⟩) = none →
      getFile (reorder_tasks st status ids now).2 status (ids.get ⟨i, h⟩) =
        none) ∧
    (∀ dir id, ¬(dir = status ∧ id ∈ ids) →
      getFile (reorder_tasks st status ids now).2 dir id =
        getFile st dir id) := by
  refine ⟨?_, ?_, ?_⟩
  · intro i h f t hget hparse
    show getFile (reorderAux status now st 0 ids) status (ids.get ⟨i, h⟩) = _
    rw [reorderAux_listed status now ids st 0 hnd i h]
    unfold reorderResult
    rw [hget]
    dsimp only
    rw [hparse]
    dsimp only
    rw [Nat.zero_add]
  · intro i h hget
    show getFile (reorderAux status now st 0 ids) status (ids.get ⟨i, h⟩) = _
    rw [reorderAux_listed status now ids st 0 hnd i h]
    unfold reorderResult
    rw [hget]
  · intro dir id h
    exact reorderAux_untouched status now ids st 0 h

def exTaskA : Task :=
  ⟨"task-a", "A", none, .todo, .medium, 1, some 1, none, [], none, none, none,
    none, 0, none, none, some "a body"⟩

def exTaskB : Task :=
  ⟨"task-b", "B", none, .todo, .medium, 2, some 2, none, [], none, none, none,
    none, 1, none, none, some "b body"⟩

def exTaskC : Task :=
  ⟨"task-c", "C", none, .todo, .medium, 3, some 3, none, [], none, none, none,
    none, 2, none, none, some "c body"⟩

def exStore3 : Store :=
  [⟨.todo, "task-a", ⟨to_frontmatter exTaskA, "a body"⟩⟩,
    ⟨.todo, "task-b", ⟨to_frontmatter exTaskB, "b body"⟩⟩,
    ⟨.todo, "task-c", ⟨to_frontmatter exTaskC, "c body"⟩⟩]

/-- Witness for C4: the claim's [C, A, B] example gives C=0, A=1, B=2. -/
theorem c4_reorder_positions_witness :
    getFile (reorder_tasks exStore3 .todo ["task-c", "task-a", "task-b"]
        9).2 .todo "task-c" =
      some ⟨to_frontmatter { exTaskC with position := 0, updated_at := some 9 }, "c body"⟩ ∧
    getFile (reorder_tasks exStore3 .todo ["task-c", "task-a", "task-b"]
        9).2 .todo "task-a" =
      some ⟨to_frontmatter { exTaskA with position := 1, updated_at := some 9 }, "a body"⟩ ∧
    getFile (reorder_tasks exStore3 .todo ["task-c", "task-a", "task-b"]
        9).2 .todo "task-b" =
      some ⟨to_frontmatter { exTaskB with position := 2, updated_at := some 9 }, "b body"⟩ :=
  ⟨(c4_reorder_positions exStore3 .todo ["task-c", "task-a", "task-b"] 9
      (by decide)).1 0 (by decide) ⟨to_frontmatter exTaskC, "c body"⟩ exTaskC
      rfl rfl,
    (c4_reorder_positions exStore3 .todo ["task-c", "task-a", "task-b"] 9
      (by decide)).1 1 (by decide) ⟨to_frontmatter exTaskA, "a body"⟩ exTaskA
      rfl rfl,
    (c4_reorder_positions exStore3 .todo ["task-c", "task-a", "task-b"] 9
      (by decide)).1 2 (by decide) ⟨to_frontmatter exTaskB, "b body"⟩ exTaskB
      rfl rfl⟩

/-! ### Filtering semantics (C5) -/

theorem leadMatch_iff : ∀ (h n : List Char),
    leadMatch h n = true ↔ ∃ r, h = n ++ r := by
  intro h n
  induction n generalizing h with
  | nil =>
    simp [leadMatch]
  | cons d ns ih =>
    cases h with
    | nil => simp [leadMatch]
    | cons c hs =>
      simp only [leadMatch, Bool.and_eq_true, beq_iff_eq, ih, List.cons_append,
        List.cons.injEq]
      constructor
      · rintro ⟨rfl, r, rfl⟩
        exact ⟨r, rfl, rfl⟩
      · rintro ⟨r, rfl, rfl⟩
        exact ⟨rfl, r, rfl⟩

theorem occursAux_iff : ∀ (h n : List Char),
    occursAux n h = true ↔ ∃ l r, h = l ++ n ++ r := by
  intro h n
  induction h with
  | nil =>
    simp only [occursAux, List.isEmpty_iff]
    constructor
    · rintro rfl
      exact ⟨[], [], rfl⟩
    · rintro ⟨l, r, hr⟩
      have h1 := List.append_eq_nil.1 hr.symm
      have h2 := List.append_eq_nil.1 h1.1
      exact h2.2
  | cons c t ih =>
    simp only [occursAux, Bool.or_eq_true, leadMatch_iff, ih]
    constructor
    · rintro (⟨r, hr⟩ | ⟨l, r, hr⟩)
      · exact ⟨[], r, by simpa using hr⟩
      · exact ⟨c :: l, r, by simp [hr]⟩
    · rintro ⟨l, r, hr⟩
      cases l with
      | nil =>
        left
        exact ⟨r, by simpa using hr⟩
      | cons x xs =>
        right
        simp only [List.cons_append, List.cons.injEq] at hr
        exact ⟨xs, r, hr.2⟩

theorem strIn_iff (n h : String) : strIn n h = true ↔ SubStr n h :=
  occursAux_iff h.data n.data

theorem SubStr_of_nil_needle {n h : String} (hn : n.data = []) : SubStr n h :=
  ⟨[], h.data, by simp [hn]⟩

theorem not_SubStr_of_nil_hay {n h : String} (hn : n.data ≠ [])
    (hh : h.data = []) : ¬SubStr n h := by
  rintro ⟨l, r, hr⟩
  rw [hh] at hr
  exact hn (List.append_eq_nil.1 (List.append_eq_nil.1 hr.symm).1).2

theorem lowerS_data_nil {q : String} (hq : q ≠ "") : (lowerS q).data ≠ [] := by
  intro hd
  apply hq
  have hqd : q.data = [] := List.map_eq_nil_iff.1 hd
  exact String.ext (by rw [hqd])

theorem keep_none (t : Task) : keepTask none none none none t = true := rfl

theorem keep_tags {ts : List String} (hts : ts ≠ []) (t : Task) :
    keepTask none none (some ts) none t = true ↔ ∃ g ∈ ts, g ∈ t.tags := by
  simp [keepTask, if_neg hts]

theorem keep_priority {p : String} (hp : p ≠ "") (t : Task) :
    keepTask (some p) none none none t = true ↔ t.priority.value = p := by
  simp [keepTask, if_neg hp]

theorem keep_assignee_iff {a : String} (ha : a ≠ "") (t : Task) :
    keepTask none (some a) none none t = true ↔ t.assignee = some a := by
  simp [keepTask, if_neg ha]

theorem keep_search_iff (q : String) (t : Task) :
    keepTask none none none (some q) t = true ↔
      (SubStr (lowerS q) (lowerS t.title) ∨
        ∃ d, t.description = some d ∧ SubStr (lowerS q) (lowerS d)) := by
  by_cases hq : q = ""
  · subst hq
    constructor
    · intro _
      exact Or.inl (SubStr_of_nil_needle rfl)
    · intro _
      rfl
  · have hql := lowerS_data_nil hq
    simp only [keepTask, Bool.true_and, if_neg hq, Bool.or_eq_true, strIn_iff]
    rcases hdesc : t.description with _ | d
    · simp only [hdesc]
      constructor
      · rintro (hs | hf)
        · exact Or.inl hs
        · cases hf
      · rintro (hs | ⟨d, hd, -⟩)
        · exact Or.inl hs
        · cases hd
    · simp only [hdesc]
      by_cases hd0 : d = ""
      · subst hd0
        simp only [if_pos rfl]
        constructor
        · rintro (hs | hf)
          · exact Or.inl hs
          · cases hf
        · rintro (hs | ⟨d', hd', hsub⟩)
          · exact Or.inl hs
          · obtain rfl := Option.some.inj hd'
            exact absurd hsub (not_SubStr_of_nil_hay hql rfl)
      · simp only [if_neg hd0, strIn_iff]
        constructor
        · rintro (hs | hsub)
          · exact Or.inl hs
          · exact Or.inr ⟨d, rfl, hsub⟩
        · rintro (hs | ⟨d', hd', hsub⟩)
          · exact Or.inl hs
          · obtain rfl := Option.some.inj hd'
            exact Or.inr hsub

theorem mem_entriesIn {st : Store} {s : TaskStatus} {f : File} :
    f ∈ entriesIn st s ↔ ∃ e ∈ st, e.dir = s ∧ e.file = f := by
  simp [entriesIn, List.mem_filterMap, Option.ite_none_right_eq_some]

theorem mem_collectTasks {st : Store} {statuses : List TaskStatus}
    {pr asg : Option String} {tg : Option (List String)} {se : Option String}
    {t : Task} :
    t ∈ collectTasks st statuses pr asg tg se ↔
      (∃ s ∈ statuses, ∃ f ∈ entriesIn st s,
        from_frontmatter f.meta f.body = .ok t) ∧
        keepTask pr asg tg se t = true := by
  unfold collectTasks
  simp only [List.mem_flatMap, List.mem_filterMap]
  constructor
  · rintro ⟨s, hs, f, hf, hmatch⟩
    rcases hp : from_frontmatter f.meta f.body with e | t'
    · rw [hp] at hmatch
      simp at hmatch
    · rw [hp] at hmatch
      dsimp only at hmatch
      by_cases hk : keepTask pr asg tg se t' = true
      · rw [if_pos hk] at hmatch
        obtain rfl := Option.some.inj hmatch
        exact ⟨⟨s, hs, f, hf, hp⟩, hk⟩
      · rw [if_neg hk] at hmatch
        cases hmatch
  · rintro ⟨⟨s, hs, f, hf, hp⟩, hk⟩
    refine ⟨s, hs, f, hf, ?_⟩
    rw [hp]
    dsimp only
    rw [if_pos hk]

theorem mem_get_tasks {st : Store} {status : Option TaskStatus}
    {pr asg : Option String} {tg : Option (List String)} {se : Option String}
    {t : Task} :
    t ∈ get_tasks st status pr asg tg se ↔
      (∃ s ∈ (match status with
        | some s => [s]
        | none => allStatuses), ∃ f ∈ entriesIn st s,
          from_frontmatter f.meta f.body = .ok t) ∧
        keepTask pr asg tg se t = true := by
  unfold get_tasks
  rw [List.mem_insertionSort]
  exact mem_collectTasks

/-- Counterexample to C5 as stated: Python truthiness makes an empty tags
list, an empty priority string and an empty assignee string behave as *no
filter*, so the listing returns tasks that match none of the requested
values. -/
theorem c5_filters_counterexample :
    (∃ t, t ∈ get_tasks exStore none none none (some []) none ∧
      ∀ g ∈ ([] : List String), g ∉ t.tags) ∧
    (∃ t, t ∈ get_tasks exStore none (some "") none none none ∧
      ¬t.priority.value = "") ∧
    (∃ t, t ∈ get_tasks exStore none none (some "") none none ∧
      ¬t.assignee = some "") :=
  ⟨⟨exTask, by decide, by simp⟩,
    ⟨exTask, by decide, by decide⟩,
    ⟨exTask, by decide, by decide⟩⟩

/-- C5 (amended).  On a consistent store: a status filter returns only tasks
whose stored status equals the filter; a *nonempty* tags filter returns
exactly the tasks sharing at least one requested tag; a *nonempty* priority
or assignee filter keeps exactly the exact matches; a search string matches a
task iff its lowercasing is a substring of the lowercased title or of the
lowercased description.  (Empty-string and empty-list filter values are falsy
in Python and deactivate the corresponding filter.) -/
theorem c5_filter_semantics (st : Store) (hc : ConsistentStore st) :
    (∀ s (pr asg : Option String) (tg : Option (List String))
      (se : Option String) t,
      t ∈ get_tasks st (some s) pr asg tg se → t.status = s) ∧
    (∀ ts, ts ≠ [] → ∀ t,
      (t ∈ get_tasks st none none none (some ts) none ↔
        t ∈ get_tasks st none none none none none ∧ ∃ g ∈ ts, g ∈ t.tags)) ∧
    (∀ p, p ≠ "" → ∀ t,
      (t ∈ get_tasks st none (some p) none none none ↔
        t ∈ get_tasks st none none none none none ∧
          t.priority.value = p)) ∧
    (∀ a, a ≠ "" → ∀ t,
      (t ∈ get_tasks st none none (some a) none none ↔
        t ∈ get_tasks st none none none none none ∧
          t.assignee = some a)) ∧
    (∀ q t,
      (t ∈ get_tasks st none none none none (some q) ↔
        t ∈ get_tasks st none none none none none ∧
          (SubStr (lowerS q) (lowerS t.title) ∨
            ∃ d, t.description = some d ∧ SubStr (lowerS q) (lowerS d)))) := by
  refine ⟨?_, ?_, ?_, ?_, ?_⟩
  · intro s pr asg tg se t ht
    rw [mem_get_tasks] at ht
    obtain ⟨⟨s', hs', f, hf, hp⟩, -⟩ := ht
    have hss : s' = s := by simpa using hs'
    subst hss
    obtain ⟨e, he, hdir, hfile⟩ := mem_entriesIn.1 hf
    obtain ⟨-, hmstat⟩ := hc.2 e he
    obtain ⟨s0, p0, hs0, hp0, htr⟩ := from_frontmatter_ok hp
    have hms : f.meta.status = s'.value := by
      rw [← hfile, hmstat, hdir]
    have hsome : TaskStatus.fromString? s'.value = some s0 := hms ▸ hs0
    rw [TaskStatus.fromString?_value] at hsome
    have hs0s : s0 = s' := (Option.some.inj hsome).symm
    rw [htr]
    exact hs0s
  · intro ts hts t
    rw [mem_get_tasks, mem_get_tasks, keep_tags hts]
    constructor
    · rintro ⟨ha, hk⟩
      exact ⟨⟨ha, rfl⟩, hk⟩
    · rintro ⟨⟨ha, -⟩, hk⟩
      exact ⟨ha, hk⟩
  · intro p hp t
    rw [mem_get_tasks, mem_get_tasks, keep_priority hp]
    constructor
    · rintro ⟨ha, hk⟩
      exact ⟨⟨ha, rfl⟩, hk⟩
    · rintro ⟨⟨ha, -⟩, hk⟩
      exact ⟨ha, hk⟩
  · intro a ha' t
    rw [mem_get_tasks, mem_get_tasks, keep_assignee_iff ha']
    constructor
    · rintro ⟨ha, hk⟩
      exact ⟨⟨ha, rfl⟩, hk⟩
    · rintro ⟨⟨ha, -⟩, hk⟩
      exact ⟨ha, hk⟩
  · intro q t
    rw [mem_get_tasks, mem_get_tasks, keep_search_iff]
    constructor
    · rintro ⟨ha, hk⟩
      exact ⟨⟨ha, rfl⟩, hk⟩
    · rintro ⟨⟨ha, -⟩, hk⟩
      exact ⟨ha, hk⟩

/-- Witness for C5 (amended), at the concrete store. -/
theorem c5_filter_semantics_witness :
    exTask ∈ get_tasks exStore none none none (some ["y"]) none :=
  ((c5_filter_semantics exStore (by decide)).2.1 ["y"] (by decide)
    exTask).mpr ⟨by decide, "y", by decide, by decide⟩

end Kanban
